import Mathlib

/-!
# Verification of the deepgram-challenge api-server

A shallow embedding of `src/api-server/src/main.rs` and `src/api-server/src/db.rs`.

Modelling conventions:
* Bytes are `Nat`; a multipart part is a name (`Option String`, since axum's
  `Field::name` returns an option) together with the list of byte chunks the
  stream delivers for that part, in arrival order. `Field::bytes()` concatenates
  the chunks, which we model with `List.flatten`.
* UTF-8 decoding (`std::str::from_utf8`) is an external library function; the
  development is parametric in a decoder `List Nat → Option String`.
* The filesystem is an association list from path to byte content;
  `File::create` truncates, which the association-list overwrite models.
* The sqlite table behind diesel is a list of rows in insertion order; diesel
  `insert_into` appends a row and the `filter(..eq..)` queries are list filters.
  SQL equality on the nullable `file_type` column matches only non-NULL values
  equal to the target, hence the `some target` comparison.
* `BTreeMap<String, Value>` is an association list whose `insert` overwrites in
  place (last write wins); `BTreeSet<String>` is a strictly sorted list of
  strings (UTF-8 byte order coincides with code-point order, i.e. with the
  `String` linear order). `Vec` is a list whose `push`/`pop` act on the end; the
  pop-pop-push intersection loop of `filter_files` is `reduceRev` acting on the
  reversed stack (top of the stack first).
* Wall-clock time is a parameter `now : Nat` (seconds since the epoch, the value
  of `SystemTime::now().duration_since(UNIX_EPOCH).as_secs()`); the Rust cast
  `as i32` is the function `u64_as_i32`.
* Errors of the ingestion pipeline are the `IngestError` inductive, following
  the spec's taxonomy: `missingFieldName` and `invalidUtf8` are the anyhow
  errors from a nameless part and a non-UTF-8 scalar part (the spec's
  `MalformedRequest` bucket for bad field name/encoding), `malformedRequest` is
  the serde_json deserialization failure, `incompleteUpload` is the
  "File upload ended early" bailout. I/O failures of the filesystem and the
  store are environmental and not modelled; the multipart stream is given as
  already-arrived data.
-/

set_option autoImplicit false

deriving instance DecidableEq for Except

namespace ApiServer

/-- The part name that carries the binary payload (`"file"` in main.rs). -/
def fileKey : String := "file"

/-- The required scalar key (`"file_name"`). -/
def fileNameKey : String := "file_name"

/-- The optional scalar key (`"file_type"`). -/
def fileTypeKey : String := "file_type"

/-- One part of a multipart body: an optional name and its byte chunks in
arrival order. -/
structure Part where
  name : Option String
  chunks : List (List Nat)
deriving DecidableEq

/-- Error taxonomy of the ingestion pipeline (see module docstring). -/
inductive IngestError where
  | missingFieldName
  | invalidUtf8
  | incompleteUpload
  | malformedRequest
deriving DecidableEq

/-- A UTF-8 decoder, external parameter (`std::str::from_utf8`). -/
abbrev Utf8Decoder := List Nat → Option String

/-- The `BTreeMap<String, Value>` of scalar fields, as an association list. -/
abbrev ScalarMap := List (String × String)

/-- `BTreeMap::insert`: overwrite in place, last write wins. -/
def mapInsert (m : ScalarMap) (k v : String) : ScalarMap :=
  match m with
  | [] => [(k, v)]
  | (k', v') :: rest => if k' = k then (k', v) :: rest else (k', v') :: mapInsert rest k v

/-- Lookup in the scalar map. -/
def mapLookup (m : ScalarMap) (k : String) : Option String :=
  match m with
  | [] => none
  | (k', v') :: rest => if k' = k then some v' else mapLookup rest k

/-- The filesystem: paths mapped to byte contents. -/
abbrev FileSystem := List (String × List Nat)

/-- `File::create` + write: insert or overwrite the content at a path. -/
def fsInsert (fs : FileSystem) (p : String) (c : List Nat) : FileSystem :=
  match fs with
  | [] => [(p, c)]
  | (q, d) :: rest => if q = p then (q, c) :: rest else (q, d) :: fsInsert rest p c

/-- Content stored at a path, if any. -/
def fsLookup (fs : FileSystem) (p : String) : Option (List Nat) :=
  match fs with
  | [] => none
  | (q, d) :: rest => if q = p then some d else fsLookup rest p

/-- db.rs: the `File` row struct (`file_name`, nullable `file_type`,
`file_upload_date : i32`). -/
structure DbFile where
  file_name : String
  file_type : Option String
  file_upload_date : Int
deriving DecidableEq

/-- db.rs `insert_file`: diesel `insert_into(files).execute`, appending a row;
no uniqueness constraint. -/
def insert_file (store : List DbFile) (f : DbFile) : List DbFile :=
  store ++ [f]

/-- db.rs `list_file_names`: `files.select(file_name).load`. -/
def list_file_names (store : List DbFile) : List String :=
  store.map (fun f => f.file_name)

/-- db.rs `find_file_by_file_name`: `files.filter(file_name.eq(target)).load`. -/
def find_file_by_file_name (store : List DbFile) (target : String) : List DbFile :=
  store.filter (fun f => f.file_name = target)

/-- db.rs `find_file_by_file_type`: `files.filter(file_type.eq(target)).load`;
SQL equality on the nullable column matches only rows whose type is non-NULL
and equal to the target. -/
def find_file_by_file_type (store : List DbFile) (target : String) : List DbFile :=
  store.filter (fun f => f.file_type = some target)

/-- db.rs `find_file_by_file_upload_date`:
`files.filter(file_upload_date.eq(target)).load`. -/
def find_file_by_file_upload_date (store : List DbFile) (target : Int) : List DbFile :=
  store.filter (fun f => f.file_upload_date = target)

/-- main.rs `FileUploadRequest`: required `file_name`, optional `file_type`. -/
structure FileUploadRequest where
  file_name : String
  file_type : Option String
deriving DecidableEq

/-- The serde_json round trip of main.rs lines 69-70: the scalar map is
serialized to a JSON object (all its values are JSON strings) and deserialized
into `FileUploadRequest`. The derive has no `deny_unknown_fields`, so serde
requires a string at `file_name`, takes the optional string at `file_type`,
and ignores every other key. -/
def deserialize_upload_request (m : ScalarMap) : Option FileUploadRequest :=
  match mapLookup m fileNameKey with
  | none => none
  | some n => some ⟨n, mapLookup m fileTypeKey⟩

/-- The scalar-collection loop of `process_file_stream` (main.rs lines 57-68):
walk the parts in arrival order; a nameless part is an error; the first part
named `"file"` breaks the loop and is returned together with the map built so
far; every other part is UTF-8 decoded and inserted into the map. If the
stream ends first, bail with "File upload ended early". -/
def collect_scalar_fields (utf8 : Utf8Decoder) :
    List Part → ScalarMap → Except IngestError (ScalarMap × Part)
  | [], _ => .error .incompleteUpload
  | p :: rest, m =>
    match p.name with
    | none => .error .missingFieldName
    | some n =>
      if n = fileKey then .ok (m, p)
      else
        match utf8 p.chunks.flatten with
        | none => .error .invalidUtf8
        | some s => collect_scalar_fields utf8 rest (mapInsert m n s)

/-- The content root: files are written under `audio/` in the working
directory. -/
def audioDir : String := "audio/"

/-- main.rs `write_file`: create (truncating) `audio/<file_name>` and write the
chunks of the file field sequentially; the final content is their
concatenation in arrival order. -/
def write_file (fs : FileSystem) (upload_request : FileUploadRequest) (file_field : Part) :
    FileSystem :=
  fsInsert fs (audioDir ++ upload_request.file_name) file_field.chunks.flatten

/-- main.rs `process_file_stream`: collect the scalar fields, deserialize them
into a `FileUploadRequest` (failure aborts before any write), then write the
file. -/
def process_file_stream (utf8 : Utf8Decoder) (parts : List Part) (fs : FileSystem) :
    Except IngestError (FileUploadRequest × FileSystem) :=
  match collect_scalar_fields utf8 parts [] with
  | .error e => .error e
  | .ok (m, file_field) =>
    match deserialize_upload_request m with
    | none => .error .malformedRequest
    | some upload_request => .ok (upload_request, write_file fs upload_request file_field)

/-- The server-visible state: the content directory and the metadata table. -/
structure ServerState where
  fs : FileSystem
  store : List DbFile
deriving DecidableEq

/-- The Rust cast `u64 as i32`: keep the low 32 bits, two's complement. -/
def u64_as_i32 (n : Nat) : Int :=
  if n % 2 ^ 32 < 2 ^ 31 then ((n % 2 ^ 32 : Nat) : Int)
  else ((n % 2 ^ 32 : Nat) : Int) - 2 ^ 32

/-- main.rs `accept_file_stream`: run the pipeline; on success stamp
`file_upload_date` with the current wall-clock seconds cast to `i32` (any
client-supplied value was never read) and insert the row; on error return it
with the state untouched. -/
def accept_file_stream (utf8 : Utf8Decoder) (now : Nat) (parts : List Part) (st : ServerState) :
    Except IngestError DbFile × ServerState :=
  match process_file_stream utf8 parts st.fs with
  | .error e => (.error e, st)
  | .ok (upload_request, fs') =>
    let file : DbFile := ⟨upload_request.file_name, upload_request.file_type, u64_as_i32 now⟩
    (.ok file, ⟨fs', insert_file st.store file⟩)

/-- `BTreeSet<String>::insert` on the strictly-sorted-list representation. -/
def setInsert (x : String) : List String → List String
  | [] => [x]
  | y :: ys => if x < y then x :: y :: ys else if x = y then y :: ys else y :: setInsert x ys

/-- `collect::<BTreeSet<String>>()`: fold the names into a set. -/
def toSet (l : List String) : List String :=
  l.foldl (fun s x => setInsert x s) []

/-- `BTreeSet::intersection(..).collect()`: the members of `a` that are also in
`b`, in `a`'s (sorted) order. -/
def setInter (a b : List String) : List String :=
  a.filter (fun x => x ∈ b)

/-- main.rs `FileFilterAttributes`: the three optional equality predicates of
the query string. -/
structure FileFilterAttributes where
  file_name : Option String
  file_type : Option String
  file_upload_date : Option Int
deriving DecidableEq

/-- The `results` stack of `filter_files` right before the intersection loop:
one set of matching file names per supplied predicate, pushed in the fixed
order name, type, date (main.rs lines 133-166). -/
def predSets (store : List DbFile) (q : FileFilterAttributes) : List (List String) :=
  let results : List (List String) := []
  let results := match q.file_name with
    | some n => results ++ [toSet ((find_file_by_file_name store n).map (fun f => f.file_name))]
    | none => results
  let results := match q.file_type with
    | some t => results ++ [toSet ((find_file_by_file_type store t).map (fun f => f.file_name))]
    | none => results
  let results := match q.file_upload_date with
    | some d =>
      results ++ [toSet ((find_file_by_file_upload_date store d).map (fun f => f.file_name))]
    | none => results
  results

/-- The `while results.len() > 1` pop-pop-intersect-push loop of main.rs lines
167-171, on the reversed stack (top first): pop the two most recent sets, push
their intersection. -/
def reduceRev (l : List (List String)) : List (List String) :=
  match l with
  | a :: b :: rest => reduceRev (setInter a b :: rest)
  | _ => l
termination_by l.length
decreasing_by simp

/-- main.rs `filter_files`: build the per-predicate sets, run the intersection
loop, and return the remaining set as a vector (sorted iteration order), or the
empty vector when no set remains. -/
def filter_files (store : List DbFile) (q : FileFilterAttributes) : List String :=
  match reduceRev (predSets store q).reverse with
  | [s] => s
  | _ => []

/-- A concrete UTF-8 decoder used by the closed witness instances: byte `b`
decodes to the character with code point `b`, which agrees with UTF-8 on the
ASCII bytes the witnesses use. -/
def utf8W : Utf8Decoder := fun bs => some (String.mk (bs.map (fun b => Char.ofNat b)))

/-! ## Lemmas about the association-list map and filesystem -/

theorem mapLookup_mapInsert (m : ScalarMap) (k v k' : String) :
    mapLookup (mapInsert m k v) k' = if k = k' then some v else mapLookup m k' := by
  induction m with
  | nil => simp [mapInsert, mapLookup]
  | cons kv rest ih =>
    obtain ⟨k0, v0⟩ := kv
    by_cases h0 : k0 = k
    · subst h0
      by_cases h1 : k0 = k'
      · subst h1; simp [mapInsert, mapLookup]
      · simp [mapInsert, mapLookup, h1, fun h : k0 = k' => h1 h]
    · by_cases h1 : k0 = k'
      · subst h1
        simp [mapInsert, mapLookup, h0, ih]
        rw [if_neg (fun h : k = k0 => h0 h.symm)]
      · simp [mapInsert, mapLookup, h0, h1, ih]

theorem fsLookup_fsInsert (fs : FileSystem) (p : String) (c : List Nat) (q : String) :
    fsLookup (fsInsert fs p c) q = if p = q then some c else fsLookup fs q := by
  induction fs with
  | nil => simp [fsInsert, fsLookup]
  | cons pc rest ih =>
    obtain ⟨p0, c0⟩ := pc
    by_cases h0 : p0 = p
    · subst h0
      by_cases h1 : p0 = q
      · subst h1; simp [fsInsert, fsLookup]
      · simp [fsInsert, fsLookup, h1, fun h : p0 = q => h1 h]
    · by_cases h1 : p0 = q
      · subst h1
        simp [fsInsert, fsLookup, h0, ih]
        rw [if_neg (fun h : p = p0 => h0 h.symm)]
      · simp [fsInsert, fsLookup, h0, h1, ih]

/-! ## C8: insert then list -/

/-- C8: inserting a record and then listing all file names yields the record's
name exactly one more time than before the insert; repeated inserts of the
same name therefore accumulate duplicate rows rather than being collapsed or
rejected. -/
theorem c8_insert_then_list_count (store : List DbFile) (r : DbFile) :
    (list_file_names (insert_file store r)).count r.file_name
      = (list_file_names store).count r.file_name + 1 := by
  simp [list_file_names, insert_file, List.count_append]

/-! ## C6: the zero-predicate query -/

/-- C6: a filter query with all three predicates absent returns the empty list
of file names, for every store — not the set of all stored names. -/
theorem c6_no_predicates_empty (store : List DbFile) :
    filter_files store ⟨none, none, none⟩ = [] := by
  simp [filter_files, predSets, reduceRev]

/-! ## The successful ingestion path, shared by C1 and C5 -/

/-- When scalar collection succeeds with map `m` and file part `fp`, and `m`
holds the required `file_name`, the whole run is the success state: the file
content at `audio/<file_name>` is the concatenation of the chunks of the file
part and exactly one row is appended to the store. -/
theorem accept_ok_eq (utf8 : Utf8Decoder) (now : Nat) (parts : List Part)
    (st : ServerState) (m : ScalarMap) (fp : Part) (n : String)
    (hc : collect_scalar_fields utf8 parts [] = .ok (m, fp))
    (hn : mapLookup m fileNameKey = some n) :
    accept_file_stream utf8 now parts st =
      (.ok ⟨n, mapLookup m fileTypeKey, u64_as_i32 now⟩,
       ⟨fsInsert st.fs (audioDir ++ n) fp.chunks.flatten,
        st.store ++ [⟨n, mapLookup m fileTypeKey, u64_as_i32 now⟩]⟩) := by
  simp [accept_file_stream, process_file_stream, hc, deserialize_upload_request, hn,
    write_file, insert_file]

/-! ## C1: the happy path writes one file and one row -/

/-- C1: for every valid multipart request — scalar collection succeeds with
map `m` and file part `fp`, and `m` holds the required `file_name` — the run
succeeds, the one path `audio/<file_name>` holds exactly the concatenation of
the chunks of the `file` part in arrival order, every other path of the
filesystem is untouched, and exactly one metadata row is appended whose
`file_name` and `file_type` are the uploaded scalar values. -/
theorem c1_valid_upload (utf8 : Utf8Decoder) (now : Nat) (parts : List Part)
    (st : ServerState) (m : ScalarMap) (fp : Part) (n : String)
    (hc : collect_scalar_fields utf8 parts [] = .ok (m, fp))
    (hn : mapLookup m fileNameKey = some n) :
    accept_file_stream utf8 now parts st =
      (.ok ⟨n, mapLookup m fileTypeKey, u64_as_i32 now⟩,
       ⟨fsInsert st.fs (audioDir ++ n) fp.chunks.flatten,
        st.store ++ [⟨n, mapLookup m fileTypeKey, u64_as_i32 now⟩]⟩)
    ∧ fsLookup (accept_file_stream utf8 now parts st).2.fs (audioDir ++ n)
        = some fp.chunks.flatten
    ∧ (∀ p, p ≠ audioDir ++ n →
        fsLookup (accept_file_stream utf8 now parts st).2.fs p = fsLookup st.fs p) := by
  have h1 := accept_ok_eq utf8 now parts st m fp n hc hn
  refine ⟨h1, ?_, ?_⟩
  · rw [h1]
    simp [fsLookup_fsInsert]
  · intro p hp
    rw [h1]
    simp only [fsLookup_fsInsert]
    rw [if_neg (fun h : audioDir ++ n = p => hp h.symm)]

/-- Witness for C1: a concrete three-part request (file_name `a`, file_type
`wav`, then the binary part with chunks `[1, 2]` and `[3]`) at second 5. -/
theorem c1_witness :
    (collect_scalar_fields utf8W
        [⟨some fileNameKey, [[97]]⟩, ⟨some fileTypeKey, [[119, 97, 118]]⟩,
          ⟨some fileKey, [[1, 2], [3]]⟩] []
      = .ok ([(fileNameKey, "a"), (fileTypeKey, "wav")], ⟨some fileKey, [[1, 2], [3]]⟩)
      ∧ mapLookup [(fileNameKey, "a"), (fileTypeKey, "wav")] fileNameKey = some "a")
    ∧ (accept_file_stream utf8W 5
        [⟨some fileNameKey, [[97]]⟩, ⟨some fileTypeKey, [[119, 97, 118]]⟩,
          ⟨some fileKey, [[1, 2], [3]]⟩] ⟨[], []⟩ =
        (.ok ⟨"a", mapLookup [(fileNameKey, "a"), (fileTypeKey, "wav")] fileTypeKey,
            u64_as_i32 5⟩,
         ⟨fsInsert [] (audioDir ++ "a") (List.flatten [[1, 2], [3]]),
          [] ++ [⟨"a", mapLookup [(fileNameKey, "a"), (fileTypeKey, "wav")] fileTypeKey,
            u64_as_i32 5⟩]⟩)
      ∧ fsLookup (accept_file_stream utf8W 5
          [⟨some fileNameKey, [[97]]⟩, ⟨some fileTypeKey, [[119, 97, 118]]⟩,
            ⟨some fileKey, [[1, 2], [3]]⟩] ⟨[], []⟩).2.fs (audioDir ++ "a")
          = some (List.flatten [[1, 2], [3]])
      ∧ (∀ p, p ≠ audioDir ++ "a" →
          fsLookup (accept_file_stream utf8W 5
            [⟨some fileNameKey, [[97]]⟩, ⟨some fileTypeKey, [[119, 97, 118]]⟩,
              ⟨some fileKey, [[1, 2], [3]]⟩] ⟨[], []⟩).2.fs p = fsLookup [] p)) :=
  ⟨⟨by decide, by decide⟩,
    c1_valid_upload utf8W 5
      [⟨some fileNameKey, [[97]]⟩, ⟨some fileTypeKey, [[119, 97, 118]]⟩,
        ⟨some fileKey, [[1, 2], [3]]⟩] ⟨[], []⟩
      [(fileNameKey, "a"), (fileTypeKey, "wav")] ⟨some fileKey, [[1, 2], [3]]⟩ "a"
      (by decide) (by decide)⟩

/-! ## C5: the timestamp is the wall clock cast to i32 -/

/-- C5 counterexample: at wall-clock second `2 ^ 31` (January 2038) a
successful ingestion stores `file_upload_date = -(2 ^ 31)`, not the actual
number of seconds since the epoch: the `as i32` cast wraps, so the stored
value does not always equal the server's wall-clock seconds. -/
theorem c5_counterexample :
    (accept_file_stream utf8W (2 ^ 31)
        [⟨some fileNameKey, [[97]]⟩, ⟨some fileKey, [[1]]⟩] ⟨[], []⟩).1
      = .ok ⟨"a", none, -(2 ^ 31)⟩
    ∧ ((-(2 ^ 31) : Int) ≠ ((2 ^ 31 : Nat) : Int)) :=
  ⟨by decide, by decide⟩

/-- C5 amended: on every successful ingestion the stored `file_upload_date` is
the wall-clock seconds reduced to a signed 32-bit value (`u64_as_i32`, the
Rust `as i32` cast), which equals the true seconds-since-epoch exactly when
that number is below `2 ^ 31` (every instant before 2038); the stored row is
determined by the `file_name` and `file_type` lookups and the clock alone, so
a client-supplied scalar `file_upload_date` never affects it. -/
theorem c5_amended_timestamp (utf8 : Utf8Decoder) (now : Nat) (parts : List Part)
    (st : ServerState) (m : ScalarMap) (fp : Part) (n : String)
    (hc : collect_scalar_fields utf8 parts [] = .ok (m, fp))
    (hn : mapLookup m fileNameKey = some n) :
    (accept_file_stream utf8 now parts st).1
      = .ok ⟨n, mapLookup m fileTypeKey, u64_as_i32 now⟩
    ∧ (now < 2 ^ 31 → u64_as_i32 now = (now : Int)) := by
  constructor
  · rw [accept_ok_eq utf8 now parts st m fp n hc hn]
  · intro h
    have hm : now % 2 ^ 32 = now := Nat.mod_eq_of_lt (lt_trans h (by norm_num))
    unfold u64_as_i32
    rw [hm, if_pos h]

/-- Witness for C5 amended: a concrete two-part request at second 7 stores
`file_upload_date = 7`. -/
theorem c5_witness :
    (collect_scalar_fields utf8W [⟨some fileNameKey, [[97]]⟩, ⟨some fileKey, [[4]]⟩] []
      = .ok ([(fileNameKey, "a")], ⟨some fileKey, [[4]]⟩)
      ∧ mapLookup [(fileNameKey, "a")] fileNameKey = some "a")
    ∧ ((accept_file_stream utf8W 7 [⟨some fileNameKey, [[97]]⟩, ⟨some fileKey, [[4]]⟩]
          ⟨[], []⟩).1
        = .ok ⟨"a", mapLookup [(fileNameKey, "a")] fileTypeKey, u64_as_i32 7⟩
      ∧ (7 < 2 ^ 31 → u64_as_i32 7 = (7 : Int))) :=
  ⟨⟨by decide, by decide⟩,
    c5_amended_timestamp utf8W 7 [⟨some fileNameKey, [[97]]⟩, ⟨some fileKey, [[4]]⟩]
      ⟨[], []⟩ [(fileNameKey, "a")] ⟨some fileKey, [[4]]⟩ "a" (by decide) (by decide)⟩

/-! ## C4: missing file_name -/

/-- C4: when scalar collection succeeds but the collected map lacks the
required key `file_name`, deserialization fails and ingestion returns
`MalformedRequest` before any file write: the filesystem and the store of the
resulting state are exactly the initial ones. -/
theorem c4_missing_file_name_is_malformed (utf8 : Utf8Decoder) (now : Nat)
    (parts : List Part) (st : ServerState) (m : ScalarMap) (fp : Part)
    (hc : collect_scalar_fields utf8 parts [] = .ok (m, fp))
    (hn : mapLookup m fileNameKey = none) :
    accept_file_stream utf8 now parts st = (.error .malformedRequest, st) := by
  simp [accept_file_stream, process_file_stream, hc, deserialize_upload_request, hn]

/-- Witness for C4: a stream whose only part is the `file` part has an empty
scalar map, so `file_name` is absent and the run returns `MalformedRequest`
with the state unchanged. -/
theorem c4_witness :
    (collect_scalar_fields utf8W [⟨some fileKey, [[1]]⟩] [] = .ok ([], ⟨some fileKey, [[1]]⟩)
      ∧ mapLookup [] fileNameKey = none)
    ∧ accept_file_stream utf8W 0 [⟨some fileKey, [[1]]⟩] ⟨[], []⟩
        = (.error .malformedRequest, ⟨[], []⟩) :=
  ⟨⟨by decide, rfl⟩,
    c4_missing_file_name_is_malformed utf8W 0 [⟨some fileKey, [[1]]⟩] ⟨[], []⟩ []
      ⟨some fileKey, [[1]]⟩ (by decide) rfl⟩

/-! ## C3: a stream with no file part -/

/-- When every part of the stream is a well-formed scalar (named, not `file`,
UTF-8 decodable), the collection loop consumes them all and bails with the
upload-ended-early error. -/
theorem collect_all_scalars_incomplete (utf8 : Utf8Decoder) :
    ∀ (parts : List Part) (m : ScalarMap),
    (∀ p ∈ parts, ∃ n s, p.name = some n ∧ n ≠ fileKey ∧ utf8 p.chunks.flatten = some s) →
    collect_scalar_fields utf8 parts m = .error .incompleteUpload := by
  intro parts
  induction parts with
  | nil => intro m _; rfl
  | cons p rest ih =>
    intro m h
    obtain ⟨n, s, hn, hnf, hs⟩ := h p (List.mem_cons_self p rest)
    simp only [collect_scalar_fields, hn, hnf, hs, if_neg hnf]
    exact ih _ (fun q hq => h q (List.mem_cons_of_mem p hq))

/-- C3 counterexample: the one-part stream whose part is nameless contains no
part named `file`, yet ingestion fails with the missing-field-name error (the
spec's MalformedRequest bucket for a bad field name), not IncompleteUpload,
refuting the claim as universally stated. -/
theorem c3_counterexample :
    (∀ p ∈ [(⟨none, [[1]]⟩ : Part)], p.name ≠ some fileKey)
    ∧ accept_file_stream utf8W 0 [⟨none, [[1]]⟩] ⟨[], []⟩
        = (.error .missingFieldName, ⟨[], []⟩)
    ∧ IngestError.missingFieldName ≠ IngestError.incompleteUpload :=
  ⟨by decide, rfl, by decide⟩

/-- C3 amended: for every multipart stream all of whose parts are well-formed
scalars (each part is named, the name is not `file`, and the payload decodes
as UTF-8) — in particular no part named `file` is ever seen — ingestion fails
with IncompleteUpload and the state is exactly unchanged: no file is written
and no metadata row is inserted. (Without the well-formedness condition the
run still fails without side effects, but with the missing-field-name or
invalid-UTF-8 error instead.) -/
theorem c3_amended_no_file_part (utf8 : Utf8Decoder) (now : Nat) (parts : List Part)
    (st : ServerState)
    (h : ∀ p ∈ parts, ∃ n s, p.name = some n ∧ n ≠ fileKey ∧ utf8 p.chunks.flatten = some s) :
    accept_file_stream utf8 now parts st = (.error .incompleteUpload, st) := by
  simp [accept_file_stream, process_file_stream,
    collect_all_scalars_incomplete utf8 parts [] h]

/-- Witness for C3 amended: a stream holding only the scalar part `file_name`
ends with IncompleteUpload and an unchanged state. -/
theorem c3_witness :
    (∀ p ∈ [(⟨some fileNameKey, [[97]]⟩ : Part)],
      ∃ n s, p.name = some n ∧ n ≠ fileKey ∧ utf8W p.chunks.flatten = some s)
    ∧ accept_file_stream utf8W 3 [⟨some fileNameKey, [[97]]⟩] ⟨[], []⟩
        = (.error .incompleteUpload, ⟨[], []⟩) :=
  ⟨fun p hp => by
    rw [List.mem_singleton] at hp
    subst hp
    exact ⟨fileNameKey, "a", rfl, by decide, by decide⟩,
   c3_amended_no_file_part utf8W 3 [⟨some fileNameKey, [[97]]⟩] ⟨[], []⟩
    (fun p hp => by
      rw [List.mem_singleton] at hp
      subst hp
      exact ⟨fileNameKey, "a", rfl, by decide, by decide⟩)⟩

/-! ## C7: the first file part terminates scalar collection -/

/-- Once the first `file`-named part is reached, the collection loop breaks:
everything after it is never read. -/
theorem collect_stops_at_file (utf8 : Utf8Decoder) (fp : Part)
    (hfp : fp.name = some fileKey) :
    ∀ (pre suf suf' : List Part) (m : ScalarMap),
    collect_scalar_fields utf8 (pre ++ fp :: suf) m
      = collect_scalar_fields utf8 (pre ++ fp :: suf') m := by
  intro pre
  induction pre with
  | nil =>
    intro suf suf' m
    simp [collect_scalar_fields, hfp]
  | cons p rest ih =>
    intro suf suf' m
    cases hp : p.name with
    | none => simp [collect_scalar_fields, hp]
    | some n =>
      by_cases hnf : n = fileKey
      · simp [collect_scalar_fields, hp, hnf]
      · cases hu : utf8 p.chunks.flatten with
        | none => simp [collect_scalar_fields, hp, hnf, hu]
        | some s =>
          simp only [List.cons_append, collect_scalar_fields, hp, if_neg hnf, hu]
          exact ih suf suf' _

/-- When no part before `fp` is named `file` and `fp` is, a successful
collection returns `fp` itself, and the lookup of every key not named by a
preceding part is unchanged — in particular the `file` part was not buffered
into the map. -/
theorem collect_ok_eq_first (utf8 : Utf8Decoder) (fp : Part)
    (hfp : fp.name = some fileKey) :
    ∀ (pre suf : List Part) (m m' : ScalarMap) (fp' : Part),
    (∀ p ∈ pre, p.name ≠ some fileKey) →
    collect_scalar_fields utf8 (pre ++ fp :: suf) m = .ok (m', fp') →
    fp' = fp ∧ ∀ key, (∀ p ∈ pre, p.name ≠ some key) → mapLookup m' key = mapLookup m key := by
  intro pre
  induction pre with
  | nil =>
    intro suf m m' fp' _ h
    simp [collect_scalar_fields, hfp] at h
    exact ⟨h.2.symm, fun key _ => by rw [h.1]⟩
  | cons p rest ih =>
    intro suf m m' fp' hpre h
    cases hp : p.name with
    | none => simp [collect_scalar_fields, hp] at h
    | some n =>
      have hnf : n ≠ fileKey := by
        intro hcon
        exact hpre p (List.mem_cons_self p rest) (by rw [hp, hcon])
      cases hu : utf8 p.chunks.flatten with
      | none => simp [collect_scalar_fields, hp, hnf, hu] at h
      | some s =>
        simp only [List.cons_append, collect_scalar_fields, hp, if_neg hnf, hu] at h
        obtain ⟨h1, h2⟩ :=
          ih suf (mapInsert m n s) m' fp' (fun q hq => hpre q (List.mem_cons_of_mem p hq)) h
        refine ⟨h1, fun key hkey => ?_⟩
        have hnk : n ≠ key := by
          intro hcon
          exact hkey p (List.mem_cons_self p rest) (by rw [hp, hcon])
        rw [h2 key (fun q hq => hkey q (List.mem_cons_of_mem p hq)),
          mapLookup_mapInsert, if_neg hnk]

/-- C7: with `fp` the first part named `file`, the parts after `fp` are never
read — the run is the same for every suffix — and a successful collection
returns `fp` itself with a map that only holds the parts strictly before it:
in particular no `file` key was buffered. -/
theorem c7_file_part_terminates (utf8 : Utf8Decoder) (now : Nat) (pre : List Part)
    (fp : Part) (suf suf' : List Part) (st : ServerState)
    (hfp : fp.name = some fileKey)
    (hpre : ∀ p ∈ pre, p.name ≠ some fileKey) :
    accept_file_stream utf8 now (pre ++ fp :: suf) st
      = accept_file_stream utf8 now (pre ++ fp :: suf') st
    ∧ ∀ m' fp'', collect_scalar_fields utf8 (pre ++ fp :: suf) [] = .ok (m', fp'') →
        fp'' = fp ∧ mapLookup m' fileKey = none := by
  constructor
  · simp only [accept_file_stream, process_file_stream,
      collect_stops_at_file utf8 fp hfp pre suf suf' []]
  · intro m' fp'' h
    obtain ⟨h1, h2⟩ := collect_ok_eq_first utf8 fp hfp pre suf [] m' fp'' hpre h
    exact ⟨h1, by rw [h2 fileKey hpre]; rfl⟩

/-- Witness for C7: one scalar part before the file part, differing junk after
it; both runs coincide and the collected map has no `file` key. -/
theorem c7_witness :
    ((⟨some fileKey, [[9]]⟩ : Part).name = some fileKey
      ∧ (∀ p ∈ [(⟨some fileNameKey, [[97]]⟩ : Part)], p.name ≠ some fileKey))
    ∧ (accept_file_stream utf8W 2
        ([⟨some fileNameKey, [[97]]⟩] ++ ⟨some fileKey, [[9]]⟩ :: [⟨some fileTypeKey, [[98]]⟩])
        ⟨[], []⟩
      = accept_file_stream utf8W 2
        ([⟨some fileNameKey, [[97]]⟩] ++ ⟨some fileKey, [[9]]⟩ :: []) ⟨[], []⟩
      ∧ ∀ m' fp'',
        collect_scalar_fields utf8W
          ([⟨some fileNameKey, [[97]]⟩] ++ ⟨some fileKey, [[9]]⟩ :: [⟨some fileTypeKey, [[98]]⟩])
          [] = .ok (m', fp'') →
        fp'' = ⟨some fileKey, [[9]]⟩ ∧ mapLookup m' fileKey = none) :=
  ⟨⟨rfl, by decide⟩,
    c7_file_part_terminates utf8W 2 [⟨some fileNameKey, [[97]]⟩] ⟨some fileKey, [[9]]⟩
      [⟨some fileTypeKey, [[98]]⟩] [] ⟨[], []⟩ rfl (by decide)⟩

/-! ## C10: unknown scalar keys are ignored -/

/-- Two scalar maps that agree on every key other than `k`. -/
def MapAgreeExcept (k : String) (m₁ m₂ : ScalarMap) : Prop :=
  ∀ key, key ≠ k → mapLookup m₁ key = mapLookup m₂ key

/-- Two collection results that differ at most in the lookups of one key: the
same error, or the same file part with maps agreeing off `k`. -/
def CollectEquiv (k : String) :
    Except IngestError (ScalarMap × Part) → Except IngestError (ScalarMap × Part) → Prop
  | .error e₁, .error e₂ => e₁ = e₂
  | .ok (m₁, f₁), .ok (m₂, f₂) => f₁ = f₂ ∧ MapAgreeExcept k m₁ m₂
  | _, _ => False

/-- The collection loop preserves agreement-off-`k` of the accumulator. -/
theorem collect_congr (utf8 : Utf8Decoder) (k : String) :
    ∀ (parts : List Part) (m₁ m₂ : ScalarMap), MapAgreeExcept k m₁ m₂ →
    CollectEquiv k (collect_scalar_fields utf8 parts m₁)
      (collect_scalar_fields utf8 parts m₂) := by
  intro parts
  induction parts with
  | nil => intro m₁ m₂ h; simp [collect_scalar_fields, CollectEquiv]
  | cons p rest ih =>
    intro m₁ m₂ h
    cases hp : p.name with
    | none => simp [collect_scalar_fields, hp, CollectEquiv]
    | some n =>
      by_cases hnf : n = fileKey
      · simp only [collect_scalar_fields, hp, if_pos hnf]
        exact ⟨rfl, h⟩
      · cases hu : utf8 p.chunks.flatten with
        | none => simp [collect_scalar_fields, hp, hnf, hu, CollectEquiv]
        | some s =>
          simp only [collect_scalar_fields, hp, if_neg hnf, hu]
          refine ih _ _ (fun key hk => ?_)
          rw [mapLookup_mapInsert, mapLookup_mapInsert]
          split
          · rfl
          · exact h key hk

/-- Inserting one extra scalar part with key `k` (decodable, not `file`)
anywhere in the stream changes the collection result only at the lookups of
`k`. -/
theorem collect_skip_unknown (utf8 : Utf8Decoder) (k : String) (hk : k ≠ fileKey)
    (bs : List (List Nat)) (s : String) (hdec : utf8 (List.flatten bs) = some s) :
    ∀ (pre rest : List Part) (m : ScalarMap),
    CollectEquiv k (collect_scalar_fields utf8 (pre ++ ⟨some k, bs⟩ :: rest) m)
      (collect_scalar_fields utf8 (pre ++ rest) m) := by
  intro pre
  induction pre with
  | nil =>
    intro rest m
    simp only [List.nil_append, collect_scalar_fields, if_neg hk, hdec]
    refine collect_congr utf8 k rest _ _ (fun key hkk => ?_)
    rw [mapLookup_mapInsert, if_neg (fun h => hkk h.symm)]
  | cons p rest' ih =>
    intro rest m
    cases hp : p.name with
    | none => simp [collect_scalar_fields, hp, CollectEquiv]
    | some n =>
      by_cases hnf : n = fileKey
      · simp only [List.cons_append, collect_scalar_fields, hp, if_pos hnf]
        exact ⟨rfl, fun key _ => rfl⟩
      · cases hu : utf8 p.chunks.flatten with
        | none => simp [collect_scalar_fields, hp, hnf, hu, CollectEquiv]
        | some s' =>
          simp only [List.cons_append, collect_scalar_fields, hp, if_neg hnf, hu]
          exact ih rest _

/-- C10: an extra scalar part whose key is none of `file_name`, `file_type`
and `file` (and whose payload decodes as UTF-8) never by itself causes the
request to fail and has no effect on the outcome: the run with the extra part
anywhere before the binary part equals the run without it — returned record,
filesystem and store included. -/
theorem c10_unknown_scalar_ignored (utf8 : Utf8Decoder) (now : Nat) (k : String)
    (hk1 : k ≠ fileKey) (hk2 : k ≠ fileNameKey) (hk3 : k ≠ fileTypeKey)
    (bs : List (List Nat)) (s : String) (hdec : utf8 (List.flatten bs) = some s)
    (pre rest : List Part) (st : ServerState) :
    accept_file_stream utf8 now (pre ++ ⟨some k, bs⟩ :: rest) st
      = accept_file_stream utf8 now (pre ++ rest) st := by
  have h := collect_skip_unknown utf8 k hk1 bs s hdec pre rest []
  cases h1 : collect_scalar_fields utf8 (pre ++ ⟨some k, bs⟩ :: rest) [] with
  | error e₁ =>
    cases h2 : collect_scalar_fields utf8 (pre ++ rest) [] with
    | error e₂ =>
      rw [h1, h2] at h
      have he : e₁ = e₂ := h
      subst he
      simp [accept_file_stream, process_file_stream, h1, h2]
    | ok v =>
      rw [h1, h2] at h
      exact absurd h (by simp [CollectEquiv])
  | ok v =>
    obtain ⟨m₁, f₁⟩ := v
    cases h2 : collect_scalar_fields utf8 (pre ++ rest) [] with
    | error e₂ =>
      rw [h1, h2] at h
      exact absurd h (by simp [CollectEquiv])
    | ok v₂ =>
      obtain ⟨m₂, f₂⟩ := v₂
      rw [h1, h2] at h
      obtain ⟨hf, hm⟩ := h
      have hfn : mapLookup m₁ fileNameKey = mapLookup m₂ fileNameKey :=
        hm fileNameKey (fun hcon => hk2 hcon.symm)
      have hft : mapLookup m₁ fileTypeKey = mapLookup m₂ fileTypeKey :=
        hm fileTypeKey (fun hcon => hk3 hcon.symm)
      have hdes : deserialize_upload_request m₁ = deserialize_upload_request m₂ := by
        simp [deserialize_upload_request, hfn, hft]
      simp [accept_file_stream, process_file_stream, h1, h2, hdes, hf]

/-- Witness for C10: the stream with an extra scalar part keyed `extra`
between `file_name` and the binary part behaves exactly as the stream without
it. -/
theorem c10_witness :
    ("extra" ≠ fileKey ∧ "extra" ≠ fileNameKey ∧ "extra" ≠ fileTypeKey
      ∧ utf8W (List.flatten [[98]]) = some "b")
    ∧ accept_file_stream utf8W 1
        ([⟨some fileNameKey, [[97]]⟩] ++ ⟨some "extra", [[98]]⟩ :: [⟨some fileKey, [[7]]⟩])
        ⟨[], []⟩
      = accept_file_stream utf8W 1 ([⟨some fileNameKey, [[97]]⟩] ++ [⟨some fileKey, [[7]]⟩])
        ⟨[], []⟩ :=
  ⟨⟨by decide, by decide, by decide, by decide⟩,
    c10_unknown_scalar_ignored utf8W 1 "extra" (by decide) (by decide) (by decide)
      [[98]] "b" (by decide) [⟨some fileNameKey, [[97]]⟩] [⟨some fileKey, [[7]]⟩] ⟨[], []⟩⟩

/-! ## The ordered-set representation: membership and sortedness -/

theorem mem_setInsert (x y : String) :
    ∀ (s : List String), y ∈ setInsert x s ↔ y = x ∨ y ∈ s := by
  intro s
  induction s with
  | nil => simp [setInsert]
  | cons z zs ih =>
    simp only [setInsert]
    split
    · simp [List.mem_cons]
    · split
      · next heq =>
        subst heq
        simp only [List.mem_cons]
        tauto
      · simp only [List.mem_cons, ih]
        tauto

theorem pairwise_setInsert (x : String) :
    ∀ (s : List String), s.Pairwise (· < ·) → (setInsert x s).Pairwise (· < ·) := by
  intro s
  induction s with
  | nil => intro _; simp [setInsert]
  | cons z zs ih =>
    intro h
    rw [List.pairwise_cons] at h
    obtain ⟨hz, hzs⟩ := h
    simp only [setInsert]
    split
    · next hlt =>
      rw [List.pairwise_cons]
      refine ⟨fun b hb => ?_, List.pairwise_cons.mpr ⟨hz, hzs⟩⟩
      rcases List.mem_cons.mp hb with rfl | hb'
      · exact hlt
      · exact lt_trans hlt (hz b hb')
    · next hnlt =>
      split
      · exact List.pairwise_cons.mpr ⟨hz, hzs⟩
      · next hne =>
        rw [List.pairwise_cons]
        have hzx : z < x := lt_of_le_of_ne (not_lt.mp hnlt) (fun hcon => hne hcon.symm)
        refine ⟨fun b hb => ?_, ih hzs⟩
        rcases (mem_setInsert x b zs).mp hb with rfl | hb'
        · exact hzx
        · exact hz b hb'

theorem pairwise_foldl_setInsert :
    ∀ (l acc : List String), acc.Pairwise (· < ·) →
      (l.foldl (fun s x => setInsert x s) acc).Pairwise (· < ·) := by
  intro l
  induction l with
  | nil => intro acc h; simpa using h
  | cons x xs ih =>
    intro acc h
    simp only [List.foldl_cons]
    exact ih _ (pairwise_setInsert x acc h)

theorem pairwise_toSet (l : List String) : (toSet l).Pairwise (· < ·) :=
  pairwise_foldl_setInsert l [] List.Pairwise.nil

theorem mem_setInter (a b : List String) (x : String) :
    x ∈ setInter a b ↔ x ∈ a ∧ x ∈ b := by
  simp [setInter]

theorem pairwise_setInter (a b : List String) (h : a.Pairwise (· < ·)) :
    (setInter a b).Pairwise (· < ·) :=
  h.sublist (List.filter_sublist a)

/-! ## The intersection loop -/

theorem reduceRev_nil : reduceRev [] = [] := by
  simp [reduceRev]

theorem reduceRev_single (a : List String) : reduceRev [a] = [a] := by
  simp [reduceRev]

theorem reduceRev_cons (a b : List String) (rest : List (List String)) :
    reduceRev (a :: b :: rest) = reduceRev (setInter a b :: rest) := by
  conv_lhs => rw [reduceRev]

theorem reduceRev_singletonAux :
    ∀ (n : Nat) (l : List (List String)), l.length ≤ n → l ≠ [] →
      ∃ s, reduceRev l = [s] := by
  intro n
  induction n with
  | zero =>
    intro l hl hne
    exact absurd (List.length_eq_zero.mp (Nat.le_zero.mp hl)) hne
  | succ n ih =>
    intro l hl hne
    rcases l with _ | ⟨a, rest1⟩
    · exact absurd rfl hne
    rcases rest1 with _ | ⟨b, rest⟩
    · exact ⟨a, reduceRev_single a⟩
    · rw [reduceRev_cons]
      refine ih (setInter a b :: rest) ?_ (by simp)
      simp only [List.length_cons] at hl ⊢
      omega

theorem reduceRev_memAux :
    ∀ (n : Nat) (l : List (List String)) (s : List String), l.length ≤ n →
      reduceRev l = [s] → ∀ x, x ∈ s ↔ ∀ t ∈ l, x ∈ t := by
  intro n
  induction n with
  | zero =>
    intro l s hl h x
    obtain rfl := List.length_eq_zero.mp (Nat.le_zero.mp hl)
    rw [reduceRev_nil] at h
    simp at h
  | succ n ih =>
    intro l s hl h x
    rcases l with _ | ⟨a, rest1⟩
    · rw [reduceRev_nil] at h
      simp at h
    rcases rest1 with _ | ⟨b, rest⟩
    · rw [reduceRev_single] at h
      have ha : a = s := by injection h
      subst ha
      simp
    · rw [reduceRev_cons] at h
      have hlen : (setInter a b :: rest).length ≤ n := by
        simp only [List.length_cons] at hl ⊢
        omega
      rw [ih _ _ hlen h x]
      simp [List.forall_mem_cons, mem_setInter, and_assoc]

theorem reduceRev_pairwiseAux :
    ∀ (n : Nat) (l : List (List String)), l.length ≤ n →
      (∀ t ∈ l, t.Pairwise (· < ·)) → ∀ t ∈ reduceRev l, t.Pairwise (· < ·) := by
  intro n
  induction n with
  | zero =>
    intro l hl _ t ht
    obtain rfl := List.length_eq_zero.mp (Nat.le_zero.mp hl)
    rw [reduceRev_nil] at ht
    simp at ht
  | succ n ih =>
    intro l hl hall t ht
    rcases l with _ | ⟨a, rest1⟩
    · rw [reduceRev_nil] at ht
      simp at ht
    rcases rest1 with _ | ⟨b, rest⟩
    · rw [reduceRev_single, List.mem_singleton] at ht
      subst ht
      exact hall _ (by simp)
    · rw [reduceRev_cons] at ht
      refine ih _ ?_ ?_ t ht
      · simp only [List.length_cons] at hl ⊢
        omega
      · intro u hu
        rcases List.mem_cons.mp hu with rfl | hu'
        · exact pairwise_setInter a b (hall a (by simp))
        · exact hall u (by simp [hu'])

/-- Every set pushed on the results stack is a `toSet`, hence strictly
sorted. -/
theorem predSets_pairwise (store : List DbFile) (q : FileFilterAttributes) :
    ∀ t ∈ predSets store q, t.Pairwise (· < ·) := by
  intro t ht
  rcases q with ⟨qn, qt, qd⟩
  cases qn <;> cases qt <;> cases qd <;> simp [predSets] at ht <;>
    rcases ht with rfl | rfl | rfl <;> exact pairwise_toSet _

/-! ## C2: the multi-predicate query is the intersection -/

/-- C2: when at least two predicates are supplied, the returned list holds
exactly the strings lying in every per-predicate file-name set, and reducing
any permutation of the per-predicate stack yields the same set of strings:
the pairwise pop-and-intersect order never changes the final set value. -/
theorem c2_intersection_of_predicates (store : List DbFile) (q : FileFilterAttributes)
    (h : 2 ≤ (predSets store q).length) :
    (∀ x, x ∈ filter_files store q ↔ ∀ t ∈ predSets store q, x ∈ t)
    ∧ (∀ l : List (List String), l.Perm (predSets store q) →
        ∀ s, reduceRev l.reverse = [s] →
        ∀ x, x ∈ s ↔ x ∈ filter_files store q) := by
  have hne : (predSets store q).reverse ≠ [] := by
    intro hcon
    rw [List.reverse_eq_nil_iff] at hcon
    rw [hcon] at h
    simp at h
  obtain ⟨s0, hs0⟩ := reduceRev_singletonAux (predSets store q).reverse.length _ le_rfl hne
  have hf : filter_files store q = s0 := by
    unfold filter_files
    rw [hs0]
  have hmem0 := reduceRev_memAux (predSets store q).reverse.length _ s0 le_rfl hs0
  constructor
  · intro x
    rw [hf, hmem0 x]
    constructor
    · exact fun hx t ht => hx t (List.mem_reverse.mpr ht)
    · exact fun hx t ht => hx t (List.mem_reverse.mp ht)
  · intro l hl s hs x
    have hmem1 := reduceRev_memAux l.reverse.length _ s le_rfl hs
    rw [hmem1 x, hf, hmem0 x]
    constructor
    · exact fun hx t ht =>
        hx t (List.mem_reverse.mpr (hl.mem_iff.mpr (List.mem_reverse.mp ht)))
    · exact fun hx t ht =>
        hx t (List.mem_reverse.mpr (hl.mem_iff.mp (List.mem_reverse.mp ht)))

/-- Witness for C2: one stored record, queried by both its name and its type
(two predicates). -/
theorem c2_witness :
    2 ≤ (predSets [⟨"a", some "wav", 1⟩] ⟨some "a", some "wav", none⟩).length
    ∧ ((∀ x, x ∈ filter_files [⟨"a", some "wav", 1⟩] ⟨some "a", some "wav", none⟩
          ↔ ∀ t ∈ predSets [⟨"a", some "wav", 1⟩] ⟨some "a", some "wav", none⟩, x ∈ t)
      ∧ (∀ l : List (List String),
          l.Perm (predSets [⟨"a", some "wav", 1⟩] ⟨some "a", some "wav", none⟩) →
          ∀ s, reduceRev l.reverse = [s] →
          ∀ x, x ∈ s ↔ x ∈ filter_files [⟨"a", some "wav", 1⟩]
            ⟨some "a", some "wav", none⟩)) :=
  ⟨by decide,
    c2_intersection_of_predicates [⟨"a", some "wav", 1⟩] ⟨some "a", some "wav", none⟩
      (by decide)⟩

/-! ## C9: results are sorted and duplicate-free -/

/-- C9: for every query that supplies at least one predicate, the returned
sequence of file names is strictly ascending in the lexicographic string
order (the BTreeSet iteration order) and therefore holds no duplicate
names. -/
theorem c9_sorted_nodup (store : List DbFile) (q : FileFilterAttributes)
    (_h : q.file_name.isSome ∨ q.file_type.isSome ∨ q.file_upload_date.isSome) :
    (filter_files store q).Pairwise (· < ·) ∧ (filter_files store q).Nodup := by
  have hp : (filter_files store q).Pairwise (· < ·) := by
    unfold filter_files
    split
    · next s heq =>
      refine reduceRev_pairwiseAux (predSets store q).reverse.length _ le_rfl
        (fun t ht => predSets_pairwise store q t (List.mem_reverse.mp ht)) s ?_
      rw [heq]
      exact List.mem_singleton_self s
    · exact List.Pairwise.nil
  exact ⟨hp, hp.imp ne_of_lt⟩

/-- Witness for C9: two records of type `wav` stored in descending name
order; the one-predicate type query holds. -/
theorem c9_witness :
    ((⟨none, some "wav", none⟩ : FileFilterAttributes).file_name.isSome
      ∨ (⟨none, some "wav", none⟩ : FileFilterAttributes).file_type.isSome
      ∨ (⟨none, some "wav", none⟩ : FileFilterAttributes).file_upload_date.isSome)
    ∧ ((filter_files [⟨"b", some "wav", 1⟩, ⟨"a", some "wav", 2⟩]
          ⟨none, some "wav", none⟩).Pairwise (· < ·)
      ∧ (filter_files [⟨"b", some "wav", 1⟩, ⟨"a", some "wav", 2⟩]
          ⟨none, some "wav", none⟩).Nodup) :=
  ⟨by decide,
    c9_sorted_nodup [⟨"b", some "wav", 1⟩, ⟨"a", some "wav", 2⟩] ⟨none, some "wav", none⟩
      (by decide)⟩

end ApiServer
